import Mathlib

/-!
Verification of `src/app.py`: a resilient stock-report aggregation pipeline.
The pipeline selects a generative-model backend from a ranked candidate list
(`get_best_models`), fetches market facts (price with a 5-day-history
fallback, a monthly resampled 1-year close series), invokes the model
candidates in order until one returns parsable JSON, merges facts with the
model output into a per-stock record (`final_data`), and carries prior
records over when a refresh fails (`__main__` loop).

Numbers are modelled as exact rationals (the source uses Python floats; the
claims under study concern exact decimal constants and data flow, not
rounding).  JSON values (`json.loads` results and `data.json` items) are
modelled by the inductive type `JVal`.  Python `dict.get` on a non-dict
raises `AttributeError`; that effect is modelled by `Except String`.
-/

namespace StockApp

/-- JSON-like values, as produced by `json.loads` and as stored in `data.json`. -/
inductive JVal where
  | null
  | bool (b : Bool)
  | num (q : ℚ)
  | str (s : String)
  | arr (xs : List JVal)
  | obj (fields : List (String × JVal))


/-- First-match association lookup (dict keys are unique, so first match models
Python dict lookup). -/
def jLookup : List (String × JVal) → String → Option JVal
  | [], _ => none
  | (k, v) :: rest, key => if k = key then some v else jLookup rest key

/-- Python `d.get(key, default)`.  Only dicts have `.get`; on any other value an
`AttributeError` is raised — the source merge uses bare `.get` chains, so this
is modelled in `Except`. -/
def pyGet : JVal → String → JVal → Except String JVal
  | .obj fs, k, d => .ok ((jLookup fs k).getD d)
  | _, _, _ => .error "AttributeError"

/-- Python truthiness of a JSON value. -/
def pyTruthy : JVal → Bool
  | .null => false
  | .bool b => b
  | .num q => decide (q ≠ 0)
  | .str s => decide (s ≠ "")
  | .arr xs => !xs.isEmpty
  | .obj fs => !fs.isEmpty

/-- Python `key in d` for the dict case.  The orchestrator only evaluates this
on dict values: every value of `old_map` is a dict (see `buildOldMap`). -/
def jHasKey : JVal → String → Bool
  | .obj fs, k => (jLookup fs k).isSome
  | _, _ => false

/-- Python `str()` as applied at its single use site,
`str(ticker.info.get('priceToBook', '-'))` (container reprs abstracted). -/
def pyStr : JVal → String
  | .str s => s
  | .num q => toString q
  | .bool b => if b then "True" else "False"
  | .null => "None"
  | .arr _ => "<list>"
  | .obj _ => "<dict>"

/-- Python `str.replace` (all non-overlapping occurrences, left to right) on
char lists, with a fuel argument making the recursion structural.  The fuel
`cs.length` always suffices because every step consumes at least one char. -/
def replaceFuel (pat rep : List Char) : Nat → List Char → List Char
  | 0, cs => cs
  | _ + 1, [] => []
  | n + 1, c :: cs =>
    if !pat.isEmpty && pat.isPrefixOf (c :: cs) then
      rep ++ replaceFuel pat rep n ((c :: cs).drop pat.length)
    else
      c :: replaceFuel pat rep n cs

/-- Python `s.replace(pat, rep)` (the source never calls it with an empty
pattern). -/
def pyReplace (s pat rep : String) : String :=
  .mk (replaceFuel pat.toList rep.toList s.toList.length s.toList)

/-- Python `m.split('/')[-1]`: the substring after the last `'/'`. -/
def lastComp (s : String) : String :=
  .mk ((s.toList.reverse.takeWhile (fun c => c != '/')).reverse)

/-- Python `s.strip()`: drop leading and trailing whitespace. -/
def pyStrip (s : String) : String :=
  .mk (((s.toList.dropWhile fun c => c.isWhitespace).reverse.dropWhile
    fun c => c.isWhitespace).reverse)

/-- Python `s.upper()` (ASCII, which covers ticker symbols). -/
def pyUpper (s : String) : String := .mk (s.toList.map Char.toUpper)

/-- Substring test, Python `needle in haystack` on strings. -/
def hasSubL (pat : List Char) : List Char → Bool
  | [] => pat.isEmpty
  | c :: cs => pat.isPrefixOf (c :: cs) || hasSubL pat cs

/-- Python `pat in s` (substring containment). -/
def hasSub (pat s : String) : Bool := hasSubL pat.toList s.toList

/-- Python `round(x, 2)` on the trusted price series (`round` modelled as
round-half-up on exact rationals). -/
def round2 (q : ℚ) : ℚ := (Rat.floor (q * 100 + 1 / 2) : ℚ) / 100

/-- pandas `.tail(n)`: the last `n` elements. -/
def tailN {α : Type} (n : Nat) (l : List α) : List α := l.drop (l.length - n)

/-! ## The fact retriever: price resolution (app.py lines 86-106)

`fast_info` is modelled as `Option (ℚ × ℚ)`: `none` models the quote sub-fetch
raising (caught by the bare `except: pass`, leaving `price = 0`), and
`some (lastPrice, prevClose)` models `fast.get('last_price', 0)` /
`fast.get('previous_close', 0)` — an absent key is already folded into the
value `0`.  The result is `(price, change, change-percent)`; the change values
stay at their `"0"` / `"0%"` defaults (modelled as `0`) whenever the source
skips the computation.  Note the source reads `hist5['Close'].iloc[-2]` after
assigning `price = hist5['Close'].iloc[-1]`; with a single-row history the
`iloc[-2]` raises `IndexError`, which the same `except: pass` catches AFTER
`price` was reassigned, so the change computation is skipped but the fallback
price stands. -/
def resolvePrice (fastInfo : Option (ℚ × ℚ)) (hist5 : List ℚ) : ℚ × ℚ × ℚ :=
  match fastInfo with
  | none => (0, 0, 0)
  | some (lastPrice, prevClose) =>
    if lastPrice = 0 then
      match hist5.reverse with
      | [] => (0, 0, 0)
      | [c1] => (c1, 0, 0)
      | c1 :: c2 :: _ =>
        if c1 ≠ 0 ∧ c2 ≠ 0 then (c1, c1 - c2, (c1 - c2) / c2 * 100)
        else (c1, 0, 0)
    else
      if prevClose ≠ 0 then
        (lastPrice, lastPrice - prevClose, (lastPrice - prevClose) / prevClose * 100)
      else (lastPrice, 0, 0)

/-! ## The model invoker with fallback (app.py lines 126-143) -/

/-- `resp.text.replace("```json", "").replace("```", "")`. -/
def stripFences (s : String) : String :=
  pyReplace (pyReplace s "```json" "") "```" ""

/-- Outcome of one candidate: `gen` models the transport
(`GenerativeModel(m).generate_content(prompt).text`, `none` = any exception),
`parse` models `json.loads` (`none` = parse failure); the response text is
fence-stripped before parsing. -/
def candidateResult (gen : String → Option String) (parse : String → Option JVal)
    (m : String) : Option JVal :=
  match gen m with
  | none => none
  | some t => parse (stripFences t)

/-- The fallback loop: first candidate whose response parses wins; its stamped
name is `m.split('/')[-1]`.  If all fail, `ai_part` stays `{}` and the stamped
name stays `"N/A"`. -/
def invokeModels (gen : String → Option String) (parse : String → Option JVal) :
    List String → JVal × String
  | [] => (.obj [], "N/A")
  | m :: rest =>
    match candidateResult gen parse m with
    | some j => (j, lastComp m)
    | none => invokeModels gen parse rest

/-- The same loop, additionally returning the list of candidates that were
attempted (submitted to the provider), in order. -/
def invokeModelsTrace (gen : String → Option String) (parse : String → Option JVal) :
    List String → (JVal × String) × List String
  | [] => ((.obj [], "N/A"), [])
  | m :: rest =>
    match candidateResult gen parse m with
    | some j => ((j, lastComp m), [m])
    | none =>
      let r := invokeModelsTrace gen parse rest
      (r.1, m :: r.2)

/-! ## The fact-guarded merger (app.py lines 145-206) -/

structure BasicInfo where
  price : ℚ
  change : ℚ
  changePercent : ℚ
  note : String


structure PeRiver where
  dates : List String
  price : List ℚ
  pe20 : JVal
  pe16 : JVal
  pe12 : JVal


structure Valuation where
  pe_status : JVal
  pb : String
  roe : JVal
  pe_river_data : PeRiver


structure Financials where
  eps_table : JVal
  revenue_trend : JVal
  valuation : Valuation


structure NewsEvents where
  news : JVal
  calendar : JVal


structure EntityRecord where
  id : String
  name : String
  category : JVal
  lastUpdated : String
  ai_model : String
  memo : JVal
  basicInfo : BasicInfo
  industry : JVal
  news_events : NewsEvents
  financials : Financials
  technical : JVal
  dividend : JVal


def defaultIndustry : JVal :=
  .obj [("moat_status", .str "-"), ("position_map", .str "-"), ("competitors", .str "-")]

def defaultTechnical : JVal :=
  .obj [("status", .str "觀察"), ("signal_light", .str "stable"),
    ("analysis_text", .str "資料分析中..."),
    ("predictions", .obj [("days30", .str "-"), ("entry_zone", .str "-")]),
    ("correction_c", .str "-"),
    ("bollinger", .obj [("status", .str "-"), ("description", .str "-")])]

def defaultDividend : JVal :=
  .obj [("yield", .str "-"), ("history_roi", .str "-"), ("future_roi", .str "-")]

/-- The deterministic valuation band derived from the trusted price series
(`[p*1.2 for p in prices]` etc.). -/
def derivedBand (prices : List ℚ) (k : ℚ) : JVal :=
  .arr (prices.map fun p => .num (p * k))

/-- `old_data.get(key, dflt) if old_data else fallback` — the prior-record
reads (`category`, `memo`) in `final_data`. -/
def priorField (old : Option JVal) (key : String) (dflt fallback : JVal) :
    Except String JVal :=
  match old with
  | some o => if pyTruthy o then pyGet o key dflt else pure fallback
  | none => pure fallback

/-- The merge of `final_data` (app.py lines 145-206), including the
`pe_river` construction.  The source repeats the
`ai_part.get("financials", {}).get("valuation", {}).get("pe_river_data", {})`
prefix chain per band and the `ai_part.get("news_events", {})` /
`ai_part.get("financials", {})` prefixes per field; these pure recomputations
are shared here.  Any `.get` on a non-dict intermediate value raises
`AttributeError` (an `Except.error`), exactly as in the source. -/
def mergeData (stock_id name : String) (price chg pct : ℚ) (dates : List String)
    (prices : List ℚ) (ai_part : JVal) (model_name : String)
    (old_data : Option JVal) (now : String) (priceToBook : Option JVal) :
    Except String EntityRecord := do
  let fin ← pyGet ai_part "financials" (.obj [])
  let val ← pyGet fin "valuation" (.obj [])
  let prd ← pyGet val "pe_river_data" (.obj [])
  let pe20 ← pyGet prd "pe20" (derivedBand prices 1.2)
  let pe16 ← pyGet prd "pe16" (derivedBand prices 1.0)
  let pe12 ← pyGet prd "pe12" (derivedBand prices 0.8)
  let category ← priorField old_data "category" (.str "未分類") (.str "新加入")
  let memo ← priorField old_data "memo" (.str "") (.str "")
  let industry ← pyGet ai_part "industry" defaultIndustry
  let ne ← pyGet ai_part "news_events" (.obj [])
  let news ← pyGet ne "news" (.arr [])
  let calendar ← pyGet ne "calendar" (.arr [])
  let fin2 ← pyGet ai_part "financials" (.obj [])
  let eps_table ← pyGet fin2 "eps_table" (.arr [])
  let revenue_trend ← pyGet fin2 "revenue_trend" (.arr [])
  let val2 ← pyGet fin2 "valuation" (.obj [])
  let pe_status ← pyGet val2 "pe_status" (.str "-")
  let roe ← pyGet val2 "roe" (.str "-")
  let technical ← pyGet ai_part "technical" defaultTechnical
  let dividend ← pyGet ai_part "dividend" defaultDividend
  pure
    { id := stock_id, name := name, category := category, lastUpdated := now,
      ai_model := model_name, memo := memo,
      basicInfo := { price := price, change := chg, changePercent := pct, note := "" },
      industry := industry,
      news_events := { news := news, calendar := calendar },
      financials :=
        { eps_table := eps_table, revenue_trend := revenue_trend,
          valuation :=
            { pe_status := pe_status, pb := pyStr (priceToBook.getD (.str "-")),
              roe := roe,
              pe_river_data :=
                { dates := dates, price := prices, pe20 := pe20, pe16 := pe16,
                  pe12 := pe12 } } },
      technical := technical, dividend := dividend }

/-! ## One refresh cycle: `get_stock_data` (app.py lines 77-210) -/

/-- The per-ticker slice of the market-data provider, at the granularity the
claims need: `fastInfo` as in `resolvePrice`; the 5-day close history; the
month-end resampled one-year close series (dates already `'%Y-%m'`-formatted,
pandas resampling is treated as part of the provider boundary); and the two
`ticker.info` reads. -/
structure TickerEnv where
  fastInfo : Option (ℚ × ℚ)
  hist5 : List ℚ
  monthly : List (String × ℚ)
  longName : Option String
  priceToBook : Option JVal

/-- `get_stock_data` on a fixed ticker environment.  `apiKey` models
`GEMINI_API_KEY` being set (when unset the model loop is skipped and `name`
is never assigned, so `final_data` falls back to `stock_id`).  A raised
`AttributeError` inside the merge is caught by the outer handler, which
returns `None`. -/
def get_stock_dataEnv (env : TickerEnv) (apiKey : Bool)
    (gen : String → Option String) (parse : String → Option JVal)
    (models : List String) (now : String) (stock_id : String)
    (old_data : Option JVal) : Option EntityRecord :=
  let r := resolvePrice env.fastInfo env.hist5
  if r.1 = 0 then none
  else
    let m12 := tailN 12 env.monthly
    let dates := m12.map (·.1)
    let prices := m12.map (fun p => round2 p.2)
    let ai := if apiKey then invokeModels gen parse models else (JVal.obj [], "N/A")
    let name := if apiKey then env.longName.getD stock_id else stock_id
    (mergeData stock_id name r.1 r.2.1 r.2.2 dates prices ai.1 ai.2 old_data now
      env.priceToBook).toOption

/-- `get_stock_data(target_id, old_data)`: the working id strips every
occurrence of `".TW"`, and the provider is always queried at
`f"{stock_id}.TW"`. -/
def get_stock_data (tickers : String → TickerEnv) (apiKey : Bool)
    (gen : String → Option String) (parse : String → Option JVal)
    (models : List String) (now : String) (target_id : String)
    (old_data : Option JVal) : Option EntityRecord :=
  let stock_id := pyReplace target_id ".TW" ""
  get_stock_dataEnv (tickers (stock_id ++ ".TW")) apiKey gen parse models now
    stock_id old_data

/-! ## The model priority resolver: `get_best_models` (app.py lines 16-30) -/

/-- One entry of `genai.list_models()`. -/
structure CatalogEntry where
  name : String
  supported_generation_methods : List String

def default_models : List String := ["models/gemini-1.5-pro", "models/gemini-1.5-flash"]

/-- `all_models`: catalog entries that support `generateContent` and whose name
contains `gemini`, in catalog order. -/
def matchingNames (es : List CatalogEntry) : List String :=
  (es.filter fun m =>
    m.supported_generation_methods.contains "generateContent" && hasSub "gemini" m.name).map
    (·.name)

/-- Python string `<`: lexicographic comparison by code point, on char lists. -/
def strLtL : List Char → List Char → Bool
  | [], [] => false
  | [], _ :: _ => true
  | _ :: _, [] => false
  | a :: as, b :: bs => if a < b then true else if b < a then false else strLtL as bs

/-- Python `a < b` on strings. -/
def strLt (a b : String) : Bool := strLtL a.toList b.toList

/-- `all_models.sort(reverse=True)`: stable descending lexicographic sort —
`a` may precede `b` in descending order exactly when `a < b` fails. -/
def pySortRev (l : List String) : List String :=
  l.insertionSort fun a b => strLt a b = false

def tierExp (es : List CatalogEntry) : List String :=
  (pySortRev (matchingNames es)).filter fun m => hasSub "exp" m

def tierPro (es : List CatalogEntry) : List String :=
  (pySortRev (matchingNames es)).filter fun m => hasSub "pro" m && !hasSub "exp" m

def tierFlash (es : List CatalogEntry) : List String :=
  (pySortRev (matchingNames es)).filter fun m => hasSub "flash" m && !hasSub "exp" m

/-- `get_best_models()`: the catalog is `none` when `genai.list_models()`
raises (the bare `except` returns the default list). -/
def get_best_models : Option (List CatalogEntry) → List String
  | none => default_models
  | some es =>
    let final := tierExp es ++ tierPro es ++ tierFlash es
    if final.isEmpty then default_models else final

/-! ## The incremental update orchestrator: `__main__` (app.py lines 212-251) -/

/-- An element of `final_results`: either a freshly merged record or a prior
`data.json` item carried over verbatim. -/
inductive OutItem where
  | fresh (r : EntityRecord)
  | carried (j : JVal)

/-- `item['id']` as used to build `old_map`: the run aborts with an uncaught
exception unless the item is a dict carrying a string under `"id"` (a missing
key raises `KeyError`; a non-dict item raises `TypeError`; a non-string id
later crashes `target_id.replace`, which sits before the `try` in
`get_stock_data`). -/
def itemId : JVal → Option String
  | .obj fs =>
    match jLookup fs "id" with
    | some (.str s) => some s
    | _ => none
  | _ => none

/-- Python dict insertion: overwrite the value in place if the key exists
(keeping its first-insertion position), else append. -/
def insertOver (m : List (String × JVal)) (k : String) (v : JVal) :
    List (String × JVal) :=
  if m.any (fun p => p.1 = k) then
    m.map fun p => if p.1 = k then (k, v) else p
  else m ++ [(k, v)]

/-- `old_map = {item['id']: item for item in current_data}`; `none` models the
run crashing on a malformed item. -/
def buildOldMap (items : List JVal) : Option (List (String × JVal)) :=
  items.foldl
    (fun acc j => do
      let m ← acc
      let s ← itemId j
      some (insertOver m s j))
    (some [])

/-- The empty dummy prior inserted for a newly added identifier. -/
def dummyFor (nid : String) : JVal :=
  .obj [("id", .str nid), ("category", .str "新加入"), ("memo", .str "")]

/-- `target_list` and `old_map` after processing `--add`: the argument is
whitespace-stripped and uppercased, prepended when not already present, and a
dummy prior is registered for it.  `if args.add:` skips an empty string
(Python truthiness); `argparse` gives `none` when the flag is absent. -/
def workingSet (items : List JVal) (addArg : Option String) :
    Option (List String × List (String × JVal)) :=
  match buildOldMap items with
  | none => none
  | some m0 =>
    let ts0 := m0.map (·.1)
    match addArg with
    | some a =>
      if a = "" then some (ts0, m0)
      else
        let nid := pyUpper (pyStrip a)
        if nid ∈ ts0 then some (ts0, m0)
        else some (nid :: ts0, insertOver m0 nid (dummyFor nid))
    | none => some (ts0, m0)

/-- One iteration of the update loop: emit the fresh record, else fall back to
the prior record — but only when `old_info and 'name' in old_info` holds
(the dummy prior has no `'name'`, so it is dropped). -/
def emitStep (refresh : String → Option JVal → Option EntityRecord)
    (m : List (String × JVal)) (acc : List OutItem) (sid : String) :
    List OutItem :=
  let old := jLookup m sid
  match refresh sid old with
  | some r => acc ++ [.fresh r]
  | none =>
    match old with
    | some o => if pyTruthy o && jHasKey o "name" then acc ++ [.carried o] else acc
    | none => acc

/-- The whole `__main__` run, parameterised by the per-identifier refresh
(`get_stock_data` composed with the providers); `none` models a crash while
building `old_map`.  The result is the `final_results` list written to
`data.json`. -/
def runMain (refresh : String → Option JVal → Option EntityRecord)
    (items : List JVal) (addArg : Option String) : Option (List OutItem) :=
  match workingSet items addArg with
  | none => none
  | some ws => some (ws.1.foldl (emitStep refresh ws.2) [])

/-! ## Helper lemmas -/

theorem except_bind_ok {ε α β : Type} {x : Except ε α} {f : α → Except ε β} {b : β} :
    (x >>= f) = .ok b ↔ ∃ a, x = .ok a ∧ f a = .ok b := by
  cases x <;> simp [Bind.bind, Except.bind]

theorem except_pure_ok {ε α : Type} {a b : α} :
    (pure a : Except ε α) = .ok b ↔ a = b := by
  simp [pure, Except.pure]

theorem except_toOption_some {ε α : Type} {x : Except ε α} {a : α} :
    x.toOption = some a ↔ x = .ok a := by
  cases x <;> simp [Except.toOption]

/-- Inversion of a successful merge: every `.get` step succeeded, and the
resulting record is the `final_data` literal over the step results. -/
theorem mergeData_ok_inv {stock_id name : String} {price chg pct : ℚ}
    {dates : List String} {prices : List ℚ} {ai_part : JVal} {model_name : String}
    {old_data : Option JVal} {now : String} {ptb : Option JVal} {r : EntityRecord}
    (h : mergeData stock_id name price chg pct dates prices ai_part model_name
      old_data now ptb = .ok r) :
    ∃ fin, pyGet ai_part "financials" (.obj []) = .ok fin ∧
    ∃ val, pyGet fin "valuation" (.obj []) = .ok val ∧
    ∃ prd, pyGet val "pe_river_data" (.obj []) = .ok prd ∧
    ∃ pe20, pyGet prd "pe20" (derivedBand prices 1.2) = .ok pe20 ∧
    ∃ pe16, pyGet prd "pe16" (derivedBand prices 1.0) = .ok pe16 ∧
    ∃ pe12, pyGet prd "pe12" (derivedBand prices 0.8) = .ok pe12 ∧
    ∃ category, priorField old_data "category" (.str "未分類") (.str "新加入") = .ok category ∧
    ∃ memo, priorField old_data "memo" (.str "") (.str "") = .ok memo ∧
    ∃ industry, pyGet ai_part "industry" defaultIndustry = .ok industry ∧
    ∃ ne, pyGet ai_part "news_events" (.obj []) = .ok ne ∧
    ∃ news, pyGet ne "news" (.arr []) = .ok news ∧
    ∃ calendar, pyGet ne "calendar" (.arr []) = .ok calendar ∧
    ∃ fin2, pyGet ai_part "financials" (.obj []) = .ok fin2 ∧
    ∃ eps_table, pyGet fin2 "eps_table" (.arr []) = .ok eps_table ∧
    ∃ revenue_trend, pyGet fin2 "revenue_trend" (.arr []) = .ok revenue_trend ∧
    ∃ val2, pyGet fin2 "valuation" (.obj []) = .ok val2 ∧
    ∃ pe_status, pyGet val2 "pe_status" (.str "-") = .ok pe_status ∧
    ∃ roe, pyGet val2 "roe" (.str "-") = .ok roe ∧
    ∃ technical, pyGet ai_part "technical" defaultTechnical = .ok technical ∧
    ∃ dividend, pyGet ai_part "dividend" defaultDividend = .ok dividend ∧
    r = { id := stock_id, name := name, category := category, lastUpdated := now,
          ai_model := model_name, memo := memo,
          basicInfo := ⟨price, chg, pct, ""⟩,
          industry := industry,
          news_events := ⟨news, calendar⟩,
          financials := ⟨eps_table, revenue_trend,
            ⟨pe_status, pyStr (ptb.getD (.str "-")), roe,
              ⟨dates, prices, pe20, pe16, pe12⟩⟩⟩,
          technical := technical, dividend := dividend } := by
  rw [mergeData] at h
  obtain ⟨fin, h1, h⟩ := except_bind_ok.mp h
  obtain ⟨val, h2, h⟩ := except_bind_ok.mp h
  obtain ⟨prd, h3, h⟩ := except_bind_ok.mp h
  obtain ⟨pe20, h4, h⟩ := except_bind_ok.mp h
  obtain ⟨pe16, h5, h⟩ := except_bind_ok.mp h
  obtain ⟨pe12, h6, h⟩ := except_bind_ok.mp h
  obtain ⟨category, h7, h⟩ := except_bind_ok.mp h
  obtain ⟨memo, h8, h⟩ := except_bind_ok.mp h
  obtain ⟨industry, h9, h⟩ := except_bind_ok.mp h
  obtain ⟨ne, h10, h⟩ := except_bind_ok.mp h
  obtain ⟨news, h11, h⟩ := except_bind_ok.mp h
  obtain ⟨calendar, h12, h⟩ := except_bind_ok.mp h
  obtain ⟨fin2, h13, h⟩ := except_bind_ok.mp h
  obtain ⟨eps_table, h14, h⟩ := except_bind_ok.mp h
  obtain ⟨revenue_trend, h15, h⟩ := except_bind_ok.mp h
  obtain ⟨val2, h16, h⟩ := except_bind_ok.mp h
  obtain ⟨pe_status, h17, h⟩ := except_bind_ok.mp h
  obtain ⟨roe, h18, h⟩ := except_bind_ok.mp h
  obtain ⟨technical, h19, h⟩ := except_bind_ok.mp h
  obtain ⟨dividend, h20, h⟩ := except_bind_ok.mp h
  exact ⟨fin, h1, val, h2, prd, h3, pe20, h4, pe16, h5, pe12, h6, category, h7,
    memo, h8, industry, h9, ne, h10, news, h11, calendar, h12, fin2, h13,
    eps_table, h14, revenue_trend, h15, val2, h16, pe_status, h17, roe, h18,
    technical, h19, dividend, h20, (except_pure_ok.mp h).symm⟩

theorem pyGet_ok_inv {j d v : JVal} {k : String} (h : pyGet j k d = .ok v) :
    ∃ fs, j = .obj fs ∧ v = (jLookup fs k).getD d := by
  cases j
  case obj fs =>
    simp [pyGet] at h
    exact ⟨fs, rfl, h.symm⟩
  all_goals simp [pyGet] at h

/-- Pure lookup of a nested path in the model output; `none` when any step is
absent or a non-dict stands in the way — i.e. the model provided no value at
this path. -/
def jChain : JVal → List String → Option JVal
  | j, [] => some j
  | .obj fs, k :: ks =>
    (match jLookup fs k with
     | some v => jChain v ks
     | none => none)
  | _, _ :: _ => none

theorem chain_step {j v : JVal} {k : String} {k2 : String} {ks : List String}
    (hget : pyGet j k (.obj []) = .ok v)
    (hchain : jChain j (k :: k2 :: ks) = none) :
    jChain v (k2 :: ks) = none := by
  obtain ⟨fs, rfl, hv⟩ := pyGet_ok_inv hget
  cases hl : jLookup fs k with
  | some w =>
    rw [hl] at hv
    simp only [jChain, hl] at hchain
    simpa [hv] using hchain
  | none =>
    rw [hl] at hv
    simp only [Option.getD] at hv
    simp [hv, jChain, jLookup]

theorem chain_last {j v d : JVal} {k : String}
    (hget : pyGet j k d = .ok v) (hchain : jChain j [k] = none) : v = d := by
  obtain ⟨fs, rfl, hv⟩ := pyGet_ok_inv hget
  cases hl : jLookup fs k with
  | some w => simp [jChain, hl] at hchain
  | none => simpa [hl] using hv

/-! ## Claims -/

/-- C1 (code_bug evidence): the Fact-Guarded Merger is NOT total.  On a valid
JSON object whose `financials` entry is not an object, the bare `.get` chain
`ai_part.get("financials", {}).get("valuation", {})` raises `AttributeError`
(first conjunct); the exception escapes the merge and is caught only by the
whole-function handler, so the entity yields no record at all instead of a
structurally complete record with per-field defaults (second conjunct).  The
unused `safe_get` helper in the source (app.py lines 148-152) guards exactly
this case and shows the intended behaviour. -/
theorem merge_not_total_on_nonobject_financials :
    mergeData "2330" "2330" 100 0 0 [] [] (.obj [("financials", .str "n/a")])
      "gemini-1.5-pro" none "2024-01-01 00:00" none = .error "AttributeError" ∧
    get_stock_dataEnv ⟨some (100, 99), [], [], none, none⟩ true
      (fun _ => some "x") (fun _ => some (.obj [("financials", .str "n/a")]))
      ["models/gemini-1.5-pro"] "2024-01-01 00:00" "2330" none = none :=
  ⟨rfl, rfl⟩

/-- C7: derived-series law.  Whenever the model output carries no
valuation-band series (the nested path
`financials.valuation.pe_river_data.peXX` resolves to nothing), a successful
merge fills the three bands with the trusted price series scaled element-wise
by 1.2, 1.0 and 0.8, and the chart dates/price line are the trusted series
themselves. -/
theorem pe_river_bands_derived {stock_id name : String} {price chg pct : ℚ}
    {dates : List String} {prices : List ℚ} {ai_part : JVal} {model_name : String}
    {old_data : Option JVal} {now : String} {ptb : Option JVal} {r : EntityRecord}
    (h : mergeData stock_id name price chg pct dates prices ai_part model_name
      old_data now ptb = .ok r)
    (h20 : jChain ai_part ["financials", "valuation", "pe_river_data", "pe20"] = none)
    (h16 : jChain ai_part ["financials", "valuation", "pe_river_data", "pe16"] = none)
    (h12 : jChain ai_part ["financials", "valuation", "pe_river_data", "pe12"] = none) :
    r.financials.valuation.pe_river_data =
      ⟨dates, prices, derivedBand prices 1.2, derivedBand prices 1.0,
        derivedBand prices 0.8⟩ := by
  obtain ⟨fin, h1, val, h2, prd, h3, pe20, h4, pe16, h5, pe12, h6, category, h7,
    memo, h8, industry, h9, ne, h10, news, h11, calendar, h12', fin2, h13,
    eps_table, h14, revenue_trend, h15, val2, h16', pe_status, h17, roe, h18,
    technical, h19, dividend, h20', hr⟩ := mergeData_ok_inv h
  have e20 := chain_last h4 (chain_step h3 (chain_step h2 (chain_step h1 h20)))
  have e16 := chain_last h5 (chain_step h3 (chain_step h2 (chain_step h1 h16)))
  have e12 := chain_last h6 (chain_step h3 (chain_step h2 (chain_step h1 h12)))
  subst hr
  simp [e20, e16, e12]

/-- C7 witness: for trusted price series `[100, 110, 120]` and a model output
with no valuation bands (`ai_part = {}`), the merged bands are exactly
`[120, 132, 144]`, `[100, 110, 120]` and `[80, 88, 96]`. -/
theorem pe_river_bands_derived_witness :
    (mergeData "2330" "w" 100 0 0 ["2024-01", "2024-02", "2024-03"]
        [100, 110, 120] (.obj []) "N/A" none "t" none).toOption.map
      (fun r => r.financials.valuation.pe_river_data) =
    some ⟨["2024-01", "2024-02", "2024-03"], [100, 110, 120],
      .arr [.num 120, .num 132, .num 144], .arr [.num 100, .num 110, .num 120],
      .arr [.num 80, .num 88, .num 96]⟩ := by
  cases hm : mergeData "2330" "w" 100 0 0 ["2024-01", "2024-02", "2024-03"]
      [100, 110, 120] (.obj []) "N/A" none "t" none with
  | error e =>
    have hs : (mergeData "2330" "w" 100 0 0 ["2024-01", "2024-02", "2024-03"]
        [100, 110, 120] (.obj []) "N/A" none "t" none).toOption.isSome = true := rfl
    rw [hm] at hs
    simp [Except.toOption] at hs
  | ok r =>
    have h := pe_river_bands_derived hm rfl rfl rfl
    simp [Except.toOption, h, derivedBand]
    norm_num

/-- The memo the merge carries forward: verbatim from the prior record when a
prior with content exists, empty otherwise — a claim-side description of the
`old_data.get('memo', '') if old_data else ''` read (an empty prior dict is
falsy, hence empty memo). -/
def memoOf : Option JVal → JVal
  | some (.obj fs) => if fs.isEmpty then .str "" else (jLookup fs "memo").getD (.str "")
  | some _ => .str ""
  | none => .str ""

theorem priorField_eval {old : Option JVal} {key : String} {dflt fb v : JVal}
    (h : priorField old key dflt fb = .ok v) :
    (old = none ∧ v = fb) ∨
    (∃ o, old = some o ∧ pyTruthy o = false ∧ v = fb) ∨
    (∃ fs, old = some (.obj fs) ∧ pyTruthy (.obj fs) = true ∧
      v = (jLookup fs key).getD dflt) := by
  cases old with
  | none =>
    left
    exact ⟨rfl, (except_pure_ok.mp h).symm⟩
  | some o =>
    by_cases ht : pyTruthy o = true
    · right; right
      simp only [priorField, ht, if_true] at h
      obtain ⟨fs, rfl, hv⟩ := pyGet_ok_inv h
      exact ⟨fs, rfl, ht, hv⟩
    · right; left
      have hf : pyTruthy o = false := by
        cases hob : pyTruthy o
        · rfl
        · exact absurd hob ht
      simp only [priorField, hf, Bool.false_eq_true, if_false] at h
      exact ⟨o, rfl, hf, (except_pure_ok.mp h).symm⟩

theorem memo_from_prior {old : Option JVal} {v : JVal}
    (h : priorField old "memo" (.str "") (.str "") = .ok v) : v = memoOf old := by
  rcases priorField_eval h with ⟨rfl, rfl⟩ | ⟨o, rfl, ht, rfl⟩ | ⟨fs, rfl, ht, rfl⟩
  · rfl
  · cases o with
    | obj fs =>
      have : fs.isEmpty = true := by simpa [pyTruthy] using ht
      simp [memoOf, this]
    | null => rfl
    | bool b => rfl
    | num q => rfl
    | str s => rfl
    | arr xs => rfl
  · have : fs.isEmpty = false := by simpa [pyTruthy] using ht
    simp [memoOf, this]

/-- C3: in every produced record, `basicInfo` price / change / change-percent
are exactly the `resolvePrice` values computed from the Fact Retriever's
snapshot, and `memo` is taken verbatim from the prior record (empty when no
prior exists).  Neither right-hand side mentions `gen`, `parse` or `models`,
so nothing the model emitted — including the `memo` field of its schema — can
reach these fields.  (`get_stock_data` always delegates to
`get_stock_dataEnv`; see the C10 theorem.) -/
theorem fact_guard_sources {env : TickerEnv} {apiKey : Bool}
    {gen : String → Option String} {parse : String → Option JVal}
    {models : List String} {now stock_id : String} {old_data : Option JVal}
    {r : EntityRecord}
    (h : get_stock_dataEnv env apiKey gen parse models now stock_id old_data = some r) :
    r.basicInfo = ⟨(resolvePrice env.fastInfo env.hist5).1,
      (resolvePrice env.fastInfo env.hist5).2.1,
      (resolvePrice env.fastInfo env.hist5).2.2, ""⟩ ∧
    r.memo = memoOf old_data := by
  simp only [get_stock_dataEnv] at h
  split at h
  · cases h
  · obtain ⟨fin, h1, val, h2, prd, h3, pe20, h4, pe16, h5, pe12, h6, category, h7,
      memo, h8, industry, h9, ne, h10, news, h11, calendar, h12, fin2, h13,
      eps_table, h14, revenue_trend, h15, val2, h16, pe_status, h17, roe, h18,
      technical, h19, dividend, h20, hr⟩ := mergeData_ok_inv (except_toOption_some.mp h)
    subst hr
    exact ⟨rfl, memo_from_prior h8⟩

/-- C3 witness: a concrete successful refresh (quote 10, previous close 5, no
prior record) carries `basicInfo = (10, 5, +100%)` from the facts and an empty
memo. -/
theorem fact_guard_sources_witness :
    (get_stock_dataEnv ⟨some (10, 5), [], [("2024-01", 100)], none, none⟩ false
        (fun _ => none) (fun _ => none) [] "t" "2330" none).map
      (fun r => (r.basicInfo, r.memo)) = some (⟨10, 5, 100, ""⟩, .str "") := by
  cases hm : get_stock_dataEnv ⟨some (10, 5), [], [("2024-01", 100)], none, none⟩
      false (fun _ => none) (fun _ => none) [] "t" "2330" none with
  | none =>
    have hs : (get_stock_dataEnv ⟨some (10, 5), [], [("2024-01", 100)], none, none⟩
        false (fun _ => none) (fun _ => none) [] "t" "2330" none).isSome = true := rfl
    rw [hm] at hs
    simp at hs
  | some r =>
    obtain ⟨hb, hmem⟩ := fact_guard_sources hm
    simp only [Option.map_some']
    rw [hb, hmem]
    norm_num [resolvePrice, memoOf]

/-- C4: the Model Invoker with Fallback.  The general conjunct characterises
every run: the attempted candidates are exactly the failing prefix of the
priority list plus the first succeeding candidate (if any) — strictly in list
order, no retry, iteration stopping at the first success — and the returned
value agrees with `invokeModels`.  The concrete conjuncts instantiate the
spec's `[A, B, C]` scenario: A and B fail, C succeeds, the result is C's
parsed output stamped with C's identifier (its path tail, `C.split('/')[-1]`),
and each candidate was attempted exactly once. -/
theorem invoker_fallback {gen : String → Option String} {parse : String → Option JVal}
    {A B C : String} {j : JVal}
    (hA : candidateResult gen parse A = none)
    (hB : candidateResult gen parse B = none)
    (hC : candidateResult gen parse C = some j)
    (hAB : A ≠ B) (hAC : A ≠ C) (hBC : B ≠ C) :
    invokeModels gen parse [A, B, C] = (j, lastComp C) ∧
    (invokeModelsTrace gen parse [A, B, C]).2 = [A, B, C] ∧
    ((invokeModelsTrace gen parse [A, B, C]).2.count A = 1 ∧
      (invokeModelsTrace gen parse [A, B, C]).2.count B = 1 ∧
      (invokeModelsTrace gen parse [A, B, C]).2.count C = 1) ∧
    (∀ ms, invokeModelsTrace gen parse ms =
      (invokeModels gen parse ms,
        ms.takeWhile (fun m => (candidateResult gen parse m).isNone) ++
          (ms.dropWhile (fun m => (candidateResult gen parse m).isNone)).take 1)) := by
  have htr : (invokeModelsTrace gen parse [A, B, C]).2 = [A, B, C] := by
    simp [invokeModelsTrace, hA, hB, hC]
  refine ⟨by simp [invokeModels, hA, hB, hC], htr, ?_, ?_⟩
  · rw [htr]
    refine ⟨?_, ?_, ?_⟩
    · rw [List.count_cons_self, List.count_cons_of_ne hAB,
        List.count_cons_of_ne hAC, List.count_nil]
    · rw [List.count_cons_of_ne hAB.symm, List.count_cons_self,
        List.count_cons_of_ne hBC, List.count_nil]
    · rw [List.count_cons_of_ne hAC.symm, List.count_cons_of_ne hBC.symm,
        List.count_cons_self, List.count_nil]
  · intro ms
    induction ms with
    | nil => rfl
    | cons m rest ih =>
      cases hc : candidateResult gen parse m with
      | some jm => simp [invokeModelsTrace, invokeModels, hc]
      | none => simp [invokeModelsTrace, invokeModels, hc, ih]

/-- C4 witness: candidates `models/a`, `models/b` fail, `models/c` returns a
fenced JSON payload; the result is its parsed output stamped `"c"`, and the
attempt trace is the full list in order. -/
theorem invoker_fallback_witness :
    invokeModels (fun m => if m = "models/c" then some "```json[1]```" else none)
      (fun s => if s = "[1]" then some (.arr [.num 1]) else none)
      ["models/a", "models/b", "models/c"] = (.arr [.num 1], "c") ∧
    (invokeModelsTrace (fun m => if m = "models/c" then some "```json[1]```" else none)
      (fun s => if s = "[1]" then some (.arr [.num 1]) else none)
      ["models/a", "models/b", "models/c"]).2 = ["models/a", "models/b", "models/c"] := by
  have h := @invoker_fallback
    (fun m => if m = "models/c" then some "```json[1]```" else none)
    (fun s => if s = "[1]" then some (.arr [.num 1]) else none)
    "models/a" "models/b" "models/c" (.arr [.num 1]) rfl rfl rfl
    (by decide) (by decide) (by decide)
  exact ⟨h.1, h.2.1⟩

theorem invoke_all_fail {gen : String → Option String} {parse : String → Option JVal} :
    ∀ ms : List String, (∀ m ∈ ms, candidateResult gen parse m = none) →
      invokeModels gen parse ms = (.obj [], "N/A")
  | [], _ => rfl
  | m :: rest, h => by
    have hm : candidateResult gen parse m = none := h m (by simp)
    have := invoke_all_fail rest fun x hx => h x (by simp [hx])
    simp [invokeModels, hm, this]

/-- C6: when every candidate in the priority list fails, a produced record's
qualitative fields all equal their per-field defaults or the values derived
deterministically from the trusted price series, and the stamped model
identifier is the `"N/A"` sentinel. -/
theorem all_candidates_fail_defaults {env : TickerEnv}
    {gen : String → Option String} {parse : String → Option JVal}
    {models : List String} {now stock_id : String} {old_data : Option JVal}
    {r : EntityRecord}
    (hfail : ∀ m ∈ models, candidateResult gen parse m = none)
    (h : get_stock_dataEnv env true gen parse models now stock_id old_data = some r) :
    r.ai_model = "N/A" ∧
    r.industry = defaultIndustry ∧
    r.technical = defaultTechnical ∧
    r.dividend = defaultDividend ∧
    r.news_events = ⟨.arr [], .arr []⟩ ∧
    r.financials.eps_table = .arr [] ∧
    r.financials.revenue_trend = .arr [] ∧
    r.financials.valuation.pe_status = .str "-" ∧
    r.financials.valuation.roe = .str "-" ∧
    r.financials.valuation.pe_river_data.pe20 =
      derivedBand r.financials.valuation.pe_river_data.price 1.2 ∧
    r.financials.valuation.pe_river_data.pe16 =
      derivedBand r.financials.valuation.pe_river_data.price 1.0 ∧
    r.financials.valuation.pe_river_data.pe12 =
      derivedBand r.financials.valuation.pe_river_data.price 0.8 := by
  simp only [get_stock_dataEnv, if_true, invoke_all_fail models hfail] at h
  split at h
  · cases h
  · obtain ⟨fin, h1, val, h2, prd, h3, pe20, h4, pe16, h5, pe12, h6, category, h7,
      memo, h8, industry, h9, ne, h10, news, h11, calendar, h12, fin2, h13,
      eps_table, h14, revenue_trend, h15, val2, h16, pe_status, h17, roe, h18,
      technical, h19, dividend, h20, hr⟩ := mergeData_ok_inv (except_toOption_some.mp h)
    simp only [pyGet, jLookup, Option.getD, Except.ok.injEq] at h1
    subst h1
    simp only [pyGet, jLookup, Option.getD, Except.ok.injEq] at h2
    subst h2
    simp only [pyGet, jLookup, Option.getD, Except.ok.injEq] at h3
    subst h3
    simp only [pyGet, jLookup, Option.getD, Except.ok.injEq] at h4 h5 h6 h9 h10
    subst h4; subst h5; subst h6; subst h9; subst h10
    simp only [pyGet, jLookup, Option.getD, Except.ok.injEq] at h11 h12 h13
    subst h11; subst h12; subst h13
    simp only [pyGet, jLookup, Option.getD, Except.ok.injEq] at h14 h15 h16
    subst h14; subst h15; subst h16
    simp only [pyGet, jLookup, Option.getD, Except.ok.injEq] at h17 h18 h19 h20
    subst h17; subst h18; subst h19; subst h20
    subst hr
    exact ⟨rfl, rfl, rfl, rfl, rfl, rfl, rfl, rfl, rfl, rfl, rfl, rfl⟩

/-- C6 witness: both candidates fail on a concrete refresh; the record is
stamped `"N/A"` and carries the default qualitative blocks. -/
theorem all_candidates_fail_defaults_witness :
    (get_stock_dataEnv ⟨some (10, 5), [], [], none, none⟩ true (fun _ => none)
        (fun _ => none) ["models/gemini-1.5-pro", "models/gemini-1.5-flash"] "t"
        "2330" none).map
      (fun r => (r.ai_model, r.industry, r.technical, r.dividend)) =
    some ("N/A", defaultIndustry, defaultTechnical, defaultDividend) := by
  cases hm : get_stock_dataEnv ⟨some (10, 5), [], [], none, none⟩ true (fun _ => none)
      (fun _ => none) ["models/gemini-1.5-pro", "models/gemini-1.5-flash"] "t"
      "2330" none with
  | none =>
    have hs : (get_stock_dataEnv ⟨some (10, 5), [], [], none, none⟩ true
        (fun _ => none) (fun _ => none)
        ["models/gemini-1.5-pro", "models/gemini-1.5-flash"] "t" "2330"
        none).isSome = true := rfl
    rw [hm] at hs
    simp at hs
  | some r =>
    have hfail : ∀ m ∈ ["models/gemini-1.5-pro", "models/gemini-1.5-flash"],
        candidateResult (fun _ => (none : Option String))
          (fun _ => (none : Option JVal)) m = none :=
      fun _ _ => rfl
    obtain ⟨h1, h2, h3, h4, _⟩ := all_candidates_fail_defaults hfail hm
    simp [h1, h2, h3, h4]

/-- C5 counterexample: zero real-time quote, non-empty 5-day history
`[0, 100]` — two closes exist in the window and the claimed derivation gives
change `100 - 0`, but the source's `if price and prev` truthiness guard sees
the zero second-to-last close and leaves the change at its `0` default.  (The
resolved price is `100`, so a record carrying the underived change is
emitted.) -/
theorem price_fallback_counterexample :
    (resolvePrice (some (0, 0)) [0, 100]).2.1 ≠ 100 - 0 := by
  norm_num [resolvePrice]

/-- C5 (amended): with a zero/unavailable real-time quote and a non-empty
5-day history, the resolved price is the most recent close of that history;
and when at least two closes exist in the window AND the two most recent
closes are both nonzero, the day-over-day change and change-percent are
derived from them. -/
theorem price_fallback {prevClose : ℚ} {hist5 : List ℚ} (hne : hist5 ≠ []) :
    hist5.getLast? = some (resolvePrice (some (0, prevClose)) hist5).1 ∧
    (∀ pre : List ℚ, ∀ c2 c1 : ℚ, hist5 = pre ++ [c2, c1] → c1 ≠ 0 → c2 ≠ 0 →
      resolvePrice (some (0, prevClose)) hist5 =
        (c1, c1 - c2, (c1 - c2) / c2 * 100)) := by
  constructor
  · cases hr : hist5.reverse with
    | nil => exact absurd (List.reverse_eq_nil_iff.mp hr) hne
    | cons c t =>
      have hlast : hist5.getLast? = some c := by
        rw [← List.head?_reverse, hr, List.head?_cons]
      rw [hlast]
      cases t with
      | nil => simp [resolvePrice, hr]
      | cons c2 t2 =>
        by_cases hg : c ≠ 0 ∧ c2 ≠ 0
        · simp [resolvePrice, hr, hg]
        · simp [resolvePrice, hr, hg]
  · intro pre c2 c1 hsplit hc1 hc2
    have hr : hist5.reverse = c1 :: c2 :: pre.reverse := by
      simp [hsplit]
    simp [resolvePrice, hr, hc1, hc2]

/-- C5 witness: quote unavailable, 5-day closes `[10, 12]` — the resolved
price is the last close `12` and the change is `+2` (`+20%`), derived from
the two most recent closes. -/
theorem price_fallback_witness :
    resolvePrice (some (0, 5)) [10, 12] = (12, 2, 20) ∧
    ([(10 : ℚ), 12].getLast? =
      some (resolvePrice (some (0, 5)) [10, 12]).1) := by
  have h := @price_fallback 5 [10, 12] (by simp)
  have h2 := h.2 [] 10 12 rfl (by norm_num) (by norm_num)
  refine ⟨?_, h.1⟩
  rw [h2]
  norm_num [Prod.ext_iff]

theorem strLtL_asymm : ∀ as bs, strLtL as bs = true → strLtL bs as = false := by
  intro as
  induction as with
  | nil =>
    intro bs h
    cases bs with
    | nil => simp [strLtL] at h
    | cons b bs => simp [strLtL]
  | cons a as ih =>
    intro bs h
    cases bs with
    | nil => simp [strLtL] at h
    | cons b bs =>
      simp only [strLtL] at h ⊢
      rcases lt_trichotomy a b with hab | hab | hab
      · rw [if_neg (lt_asymm hab), if_pos hab]
      · subst hab
        rw [if_neg (lt_irrefl a), if_neg (lt_irrefl a)] at h ⊢
        exact ih bs h
      · rw [if_neg (lt_asymm hab), if_pos hab] at h
        exact absurd h (by simp)

theorem strLtL_ge_trans :
    ∀ as bs cs, strLtL as bs = false → strLtL bs cs = false → strLtL as cs = false := by
  intro as
  induction as with
  | nil =>
    intro bs cs h1 h2
    cases bs with
    | nil => exact h2
    | cons b bs => simp [strLtL] at h1
  | cons a as ih =>
    intro bs cs h1 h2
    cases bs with
    | nil =>
      cases cs with
      | nil => simp [strLtL]
      | cons c cs => simp [strLtL] at h2
    | cons b bs =>
      cases cs with
      | nil => simp [strLtL]
      | cons c cs =>
        simp only [strLtL] at h1 h2 ⊢
        rcases lt_trichotomy a b with hab | hab | hab
        · rw [if_pos hab] at h1
          exact absurd h1 (by simp)
        · subst hab
          rw [if_neg (lt_irrefl a), if_neg (lt_irrefl a)] at h1
          rcases lt_trichotomy a c with hac | hac | hac
          · rw [if_pos hac] at h2
            exact absurd h2 (by simp)
          · subst hac
            rw [if_neg (lt_irrefl a), if_neg (lt_irrefl a)] at h2 ⊢
            exact ih bs cs h1 h2
          · rw [if_neg (lt_asymm hac), if_pos hac]
        · rcases lt_trichotomy b c with hbc | hbc | hbc
          · rw [if_pos hbc] at h2
            exact absurd h2 (by simp)
          · subst hbc
            rw [if_neg (lt_asymm hab), if_pos hab]
          · have hca : c < a := lt_trans hbc hab
            rw [if_neg (lt_asymm hca), if_pos hca]

instance instStrGeTotal : IsTotal String (fun a b => strLt a b = false) := by
  constructor
  intro a b
  cases h : strLt a b
  · exact Or.inl rfl
  · exact Or.inr (strLtL_asymm _ _ h)

instance instStrGeTrans : IsTrans String (fun a b => strLt a b = false) :=
  ⟨fun _ _ _ h1 h2 => strLtL_ge_trans _ _ _ h1 h2⟩

/-- C8: the model priority resolver.  A failed catalog query yields the fixed
default pair (one `pro`, one `flash` identifier); so does a catalog with zero
matching entries.  Otherwise, whenever the tiered concatenation is non-empty,
the result is exactly the `exp` tier, then the `pro` (non-`exp`) tier, then
the `flash` (non-`exp`) tier; each tier holds precisely the matching
identifiers carrying its marker substring, in descending lexicographic
order. -/
theorem resolver_ranking :
    get_best_models none = default_models ∧
    (∀ es, matchingNames es = [] → get_best_models (some es) = default_models) ∧
    (∀ es, tierExp es ++ tierPro es ++ tierFlash es ≠ [] →
      get_best_models (some es) = tierExp es ++ tierPro es ++ tierFlash es) ∧
    (∀ es, List.Sorted (fun a b => strLt a b = false) (tierExp es) ∧
      List.Sorted (fun a b => strLt a b = false) (tierPro es) ∧
      List.Sorted (fun a b => strLt a b = false) (tierFlash es)) ∧
    (∀ es x,
      (x ∈ tierExp es ↔ x ∈ matchingNames es ∧ hasSub "exp" x = true) ∧
      (x ∈ tierPro es ↔
        x ∈ matchingNames es ∧ (hasSub "pro" x && !hasSub "exp" x) = true) ∧
      (x ∈ tierFlash es ↔
        x ∈ matchingNames es ∧ (hasSub "flash" x && !hasSub "exp" x) = true)) := by
  refine ⟨rfl, ?_, ?_, ?_, ?_⟩
  · intro es h
    simp [get_best_models, tierExp, tierPro, tierFlash, pySortRev, h]
  · intro es hne
    have hemp : (tierExp es ++ tierPro es ++ tierFlash es).isEmpty = false := by
      cases hc : tierExp es ++ tierPro es ++ tierFlash es with
      | nil => exact absurd hc hne
      | cons x xs => rfl
    simp only [get_best_models]
    rw [hemp]
    simp
  · intro es
    exact ⟨List.Pairwise.filter _ (List.sorted_insertionSort _ _),
      List.Pairwise.filter _ (List.sorted_insertionSort _ _),
      List.Pairwise.filter _ (List.sorted_insertionSort _ _)⟩
  · intro es x
    constructor
    · simp only [tierExp, pySortRev, List.mem_filter]
      rw [(List.perm_insertionSort _ _).mem_iff]
    constructor
    · simp only [tierPro, pySortRev, List.mem_filter]
      rw [(List.perm_insertionSort _ _).mem_iff]
    · simp only [tierFlash, pySortRev, List.mem_filter]
      rw [(List.perm_insertionSort _ _).mem_iff]

/-- C8 witness: a catalog whose only entry does not match yields the default
pair; a mixed catalog (`exp`, `pro`, `flash` and one non-matching entry)
yields the three tiers in order. -/
theorem resolver_ranking_witness :
    get_best_models (some [⟨"models/other", ["generateContent"]⟩]) = default_models ∧
    get_best_models (some [⟨"models/gemini-exp-1206", ["generateContent"]⟩,
        ⟨"models/gemini-1.5-pro", ["generateContent"]⟩,
        ⟨"models/gemini-2.0-flash", ["generateContent"]⟩,
        ⟨"models/other", []⟩]) =
      ["models/gemini-exp-1206", "models/gemini-1.5-pro", "models/gemini-2.0-flash"] := by
  refine ⟨resolver_ranking.2.1 _ rfl, ?_⟩
  exact (resolver_ranking.2.2.1 _ (by decide)).trans (by decide)

theorem emitStep_eq (refresh : String → Option JVal → Option EntityRecord)
    (m : List (String × JVal)) (acc : List OutItem) (sid : String) :
    ∃ tail, emitStep refresh m acc sid = acc ++ tail := by
  simp only [emitStep]
  cases refresh sid (jLookup m sid) with
  | some r => exact ⟨[.fresh r], rfl⟩
  | none =>
    cases jLookup m sid with
    | none => exact ⟨[], (List.append_nil acc).symm⟩
    | some o =>
      dsimp only
      by_cases hg : (pyTruthy o && jHasKey o "name") = true
      · rw [if_pos hg]
        exact ⟨[.carried o], rfl⟩
      · rw [if_neg hg]
        exact ⟨[], (List.append_nil acc).symm⟩

theorem emit_foldl_mono {refresh : String → Option JVal → Option EntityRecord}
    {m : List (String × JVal)} {u : OutItem} :
    ∀ (ts : List String) (acc : List OutItem), u ∈ acc →
      u ∈ ts.foldl (emitStep refresh m) acc
  | [], _, hu => hu
  | s :: ts, acc, hu => by
    obtain ⟨tail, heq⟩ := emitStep_eq refresh m acc s
    rw [List.foldl_cons]
    exact emit_foldl_mono ts _ (by rw [heq]; exact List.mem_append_left _ hu)

theorem emit_hits {refresh : String → Option JVal → Option EntityRecord}
    {m : List (String × JVal)} {x : String} {o : JVal}
    (ho : jLookup m x = some o) (hr : refresh x (some o) = none)
    (hg : (pyTruthy o && jHasKey o "name") = true) :
    ∀ (ts : List String) (acc : List OutItem), x ∈ ts →
      OutItem.carried o ∈ ts.foldl (emitStep refresh m) acc
  | [], _, hx => absurd hx (List.not_mem_nil x)
  | s :: ts, acc, hx => by
    by_cases hsx : s = x
    · subst hsx
      have hstep : emitStep refresh m acc s = acc ++ [.carried o] := by
        simp only [emitStep, ho, hr, hg, if_true]
      rw [List.foldl_cons, hstep]
      exact emit_foldl_mono ts _ (List.mem_append_right acc (by simp))
    · have hx' : x ∈ ts := by
        rcases List.mem_cons.mp hx with h | h
        · exact absurd h.symm hsx
        · exact h
      rw [List.foldl_cons]
      exact emit_hits ho hr hg ts _ hx'

theorem truthy_of_hasKey {o : JVal} {k : String} (h : jHasKey o k = true) :
    pyTruthy o = true := by
  cases o with
  | obj fs =>
    cases fs with
    | nil => simp [jHasKey, jLookup] at h
    | cons p ps => simp [pyTruthy]
  | null => simp [jHasKey] at h
  | bool b => simp [jHasKey] at h
  | num q => simp [jHasKey] at h
  | str s => simp [jHasKey] at h
  | arr xs => simp [jHasKey] at h

/-- C2: the carry-over law.  If an entity of the working set has a prior
record with real content (it carries a `'name'` key) and its fact fetch is
unusable (no price could be resolved, so `get_stock_data` returns nothing),
then the output collection contains that prior record itself — the very same
value, hence unchanged, `memo` included. -/
theorem carry_over_law {tickers : String → TickerEnv} {apiKey : Bool}
    {gen : String → Option String} {parse : String → Option JVal}
    {models : List String} {now : String} {items : List JVal}
    {addArg : Option String} {x : String} {o : JVal} {ts : List String}
    {m : List (String × JVal)} {out : List OutItem}
    (hws : workingSet items addArg = some (ts, m))
    (hx : x ∈ ts) (ho : jLookup m x = some o)
    (hname : jHasKey o "name" = true)
    (hprice : (resolvePrice (tickers (pyReplace x ".TW" "" ++ ".TW")).fastInfo
      (tickers (pyReplace x ".TW" "" ++ ".TW")).hist5).1 = 0)
    (hrun : runMain
      (fun sid old => get_stock_data tickers apiKey gen parse models now sid old)
      items addArg = some out) :
    OutItem.carried o ∈ out := by
  have htr : pyTruthy o = true := truthy_of_hasKey hname
  have hrefresh :
      get_stock_data tickers apiKey gen parse models now x (some o) = none := by
    simp only [get_stock_data, get_stock_dataEnv]
    rw [if_pos hprice]
  simp only [runMain, hws, Option.some.injEq] at hrun
  subst hrun
  exact emit_hits ho hrefresh (by rw [htr, hname]; rfl) ts [] hx

/-- C2 witness: one prior record with a `name` and memo `"w"`, quote and
history both unusable — the run carries the record over verbatim. -/
theorem carry_over_law_witness :
    OutItem.carried (.obj [("id", .str "A"), ("name", .str "AA"), ("memo", .str "w")]) ∈
      [OutItem.carried (.obj [("id", .str "A"), ("name", .str "AA"), ("memo", .str "w")])] :=
  @carry_over_law (fun _ => ⟨some (0, 0), [], [], none, none⟩) false
    (fun _ => none) (fun _ => none) [] "t"
    [.obj [("id", .str "A"), ("name", .str "AA"), ("memo", .str "w")]] none "A"
    (.obj [("id", .str "A"), ("name", .str "AA"), ("memo", .str "w")])
    ["A"] [("A", .obj [("id", .str "A"), ("name", .str "AA"), ("memo", .str "w")])]
    [OutItem.carried (.obj [("id", .str "A"), ("name", .str "AA"), ("memo", .str "w")])]
    rfl (by simp) rfl rfl rfl rfl

theorem emit_carried_inv {refresh : String → Option JVal → Option EntityRecord}
    {m : List (String × JVal)} {o : JVal} :
    ∀ (ts : List String) (acc : List OutItem),
      OutItem.carried o ∈ ts.foldl (emitStep refresh m) acc →
      OutItem.carried o ∈ acc ∨ (pyTruthy o && jHasKey o "name") = true
  | [], _, h => Or.inl h
  | s :: ts, acc, h => by
    rw [List.foldl_cons] at h
    rcases emit_carried_inv ts (emitStep refresh m acc s) h with h1 | h1
    · revert h1
      simp only [emitStep]
      cases refresh s (jLookup m s) with
      | some r =>
        intro h1
        rcases List.mem_append.mp h1 with h2 | h2
        · exact Or.inl h2
        · exact absurd (List.mem_singleton.mp h2) (by simp)
      | none =>
        cases jLookup m s with
        | none => exact Or.inl
        | some ob =>
          dsimp only
          by_cases hg : (pyTruthy ob && jHasKey ob "name") = true
          · rw [if_pos hg]
            intro h1
            rcases List.mem_append.mp h1 with h2 | h2
            · exact Or.inl h2
            · obtain rfl : o = ob := by
                have := List.mem_singleton.mp h2
                injection this
              exact Or.inr hg
          · rw [if_neg hg]
            exact Or.inl
    · exact Or.inr h1

theorem jLookup_not_mem {m0 : List (String × JVal)} {k : String}
    (h : k ∉ m0.map (fun p => p.1)) : jLookup m0 k = none := by
  induction m0 with
  | nil => rfl
  | cons p ps ih =>
    cases p with
    | mk a b =>
      simp only [List.map_cons, List.mem_cons] at h
      push_neg at h
      simp [jLookup, Ne.symm h.1, ih h.2]

theorem jLookup_append_self {m0 : List (String × JVal)} {nid : String} {v : JVal}
    (h : jLookup m0 nid = none) : jLookup (m0 ++ [(nid, v)]) nid = some v := by
  induction m0 with
  | nil => simp [jLookup]
  | cons p ps ih =>
    cases p with
    | mk a b =>
      by_cases ha : a = nid
      · subst ha
        simp [jLookup] at h
      · simp only [List.cons_append, jLookup, if_neg ha] at h ⊢
        exact ih h

theorem jLookup_append_other {m0 : List (String × JVal)} {nid k : String} {v : JVal}
    (h : k ≠ nid) : jLookup (m0 ++ [(nid, v)]) k = jLookup m0 k := by
  induction m0 with
  | nil => simp [jLookup, Ne.symm h]
  | cons p ps ih =>
    cases p with
    | mk a b =>
      by_cases ha : a = k
      · simp [jLookup, ha]
      · simp only [List.cons_append, jLookup, if_neg ha]
        exact ih

theorem insertOver_fresh {m0 : List (String × JVal)} {nid : String} {v : JVal}
    (h : nid ∉ m0.map (fun p => p.1)) : insertOver m0 nid v = m0 ++ [(nid, v)] := by
  rw [insertOver, if_neg]
  intro hany
  rw [List.any_eq_true] at hany
  obtain ⟨p, hp, he⟩ := hany
  exact h (List.mem_map.mpr ⟨p, hp, by simpa using he⟩)

theorem emit_foldl_congr {refresh : String → Option JVal → Option EntityRecord}
    {m1 m2 : List (String × JVal)} :
    ∀ (ts : List String) (acc : List OutItem),
      (∀ sid ∈ ts, jLookup m1 sid = jLookup m2 sid) →
      ts.foldl (emitStep refresh m1) acc = ts.foldl (emitStep refresh m2) acc
  | [], _, _ => rfl
  | s :: ts, acc, h => by
    have hs := h s (by simp)
    have hstep : emitStep refresh m1 acc s = emitStep refresh m2 acc s := by
      simp only [emitStep, hs]
    rw [List.foldl_cons, List.foldl_cons, hstep]
    exact emit_foldl_congr ts _ fun sid hsid => h sid (by simp [hsid])

/-- C9: the orchestrator's notion of a prior record with "real content" is the
presence of the `'name'` key.  First conjunct: any record carried into the
output passed the `old_info and 'name' in old_info` test (it is truthy and
carries `'name'`).  Second conjunct: an identifier added via `--add` whose
refresh fails contributes nothing — the whole run's output equals the run
without the `--add` — because its synthesized placeholder (only `id`,
`category`, `memo`) has no `'name'` and is dropped. -/
theorem name_guard_and_dummy_dropped :
    (∀ (refresh : String → Option JVal → Option EntityRecord)
        (m : List (String × JVal)) (ts : List String) (o : JVal),
      OutItem.carried o ∈ ts.foldl (emitStep refresh m) [] →
      pyTruthy o = true ∧ jHasKey o "name" = true) ∧
    (∀ (refresh : String → Option JVal → Option EntityRecord)
        (items : List JVal) (a : String) (m0 : List (String × JVal)),
      buildOldMap items = some m0 → a ≠ "" →
      pyUpper (pyStrip a) ∉ m0.map (fun p => p.1) →
      refresh (pyUpper (pyStrip a)) (some (dummyFor (pyUpper (pyStrip a)))) = none →
      runMain refresh items (some a) = runMain refresh items none) := by
  constructor
  · intro refresh m ts o h
    rcases emit_carried_inv ts [] h with h1 | h1
    · cases h1
    · simpa using h1
  · intro refresh items a m0 hbm ha hnin href
    have hfresh := @insertOver_fresh m0 (pyUpper (pyStrip a)) (dummyFor (pyUpper (pyStrip a))) hnin
    have hws1 : workingSet items (some a) =
        some (pyUpper (pyStrip a) :: m0.map (fun p => p.1),
          m0 ++ [(pyUpper (pyStrip a), dummyFor (pyUpper (pyStrip a)))]) := by
      simp only [workingSet, hbm]
      rw [if_neg ha, if_neg hnin, hfresh]
    have hws0 : workingSet items none = some (m0.map (fun p => p.1), m0) := by
      simp only [workingSet, hbm]
    rw [runMain, runMain, hws1, hws0]
    have hland : jLookup (m0 ++ [(pyUpper (pyStrip a), dummyFor (pyUpper (pyStrip a)))])
        (pyUpper (pyStrip a)) = some (dummyFor (pyUpper (pyStrip a))) :=
      jLookup_append_self (jLookup_not_mem hnin)
    have hstep : emitStep refresh (m0 ++ [(pyUpper (pyStrip a), dummyFor (pyUpper (pyStrip a)))])
        [] (pyUpper (pyStrip a)) = [] := by
      simp only [emitStep, hland, href]
      rw [if_neg]
      intro hg
      simp [dummyFor, jHasKey, jLookup] at hg
    simp only [List.foldl_cons, hstep]
    rw [emit_foldl_congr (m0.map fun p => p.1) []]
    intro sid hsid
    have hne : sid ≠ pyUpper (pyStrip a) := fun he => hnin (he ▸ hsid)
    exact jLookup_append_other hne

/-- C9 witness: adding `" t "` (normalised `"T"`) to an empty prior collection
with a failing refresh yields the same output as not adding it. -/
theorem name_guard_and_dummy_dropped_witness :
    runMain (fun _ _ => none) [] (some " t ") = runMain (fun _ _ => none) [] none :=
  name_guard_and_dummy_dropped.2 (fun _ _ => none) [] " t " [] rfl (by decide)
    (by simp) rfl

/-- C10: identifier normalisation at the public interface.  First conjunct:
the `--add` argument is whitespace-stripped and uppercased, the resulting id
is prepended to the working list and registered with the synthesized dummy
prior.  Second conjunct: every produced record's `id` equals the working
identifier with every occurrence of `".TW"` removed.  Third conjunct: the
refresh consults the market-data provider only at the stripped identifier
with `".TW"` appended — two provider maps agreeing there give identical
results. -/
theorem id_normalisation :
    (∀ (items : List JVal) (a : String) (m0 : List (String × JVal)),
      buildOldMap items = some m0 → a ≠ "" →
      pyUpper (pyStrip a) ∉ m0.map (fun p => p.1) →
      workingSet items (some a) =
        some (pyUpper (pyStrip a) :: m0.map (fun p => p.1),
          insertOver m0 (pyUpper (pyStrip a)) (dummyFor (pyUpper (pyStrip a))))) ∧
    (∀ (tickers : String → TickerEnv) (apiKey : Bool)
        (gen : String → Option String) (parse : String → Option JVal)
        (models : List String) (now target_id : String) (old_data : Option JVal)
        (r : EntityRecord),
      get_stock_data tickers apiKey gen parse models now target_id old_data = some r →
      r.id = pyReplace target_id ".TW" "") ∧
    (∀ (tickers tickers' : String → TickerEnv) (apiKey : Bool)
        (gen : String → Option String) (parse : String → Option JVal)
        (models : List String) (now target_id : String) (old_data : Option JVal),
      tickers (pyReplace target_id ".TW" "" ++ ".TW") =
        tickers' (pyReplace target_id ".TW" "" ++ ".TW") →
      get_stock_data tickers apiKey gen parse models now target_id old_data =
        get_stock_data tickers' apiKey gen parse models now target_id old_data) := by
  refine ⟨?_, ?_, ?_⟩
  · intro items a m0 hbm ha hnin
    simp only [workingSet, hbm]
    rw [if_neg ha, if_neg hnin]
  · intro tickers apiKey gen parse models now target_id old_data r h
    simp only [get_stock_data, get_stock_dataEnv] at h
    split at h
    · cases h
    · obtain ⟨fin, h1, val, h2, prd, h3, pe20, h4, pe16, h5, pe12, h6, category, h7,
        memo, h8, industry, h9, ne, h10, news, h11, calendar, h12, fin2, h13,
        eps_table, h14, revenue_trend, h15, val2, h16, pe_status, h17, roe, h18,
        technical, h19, dividend, h20, hr⟩ := mergeData_ok_inv (except_toOption_some.mp h)
      rw [hr]
  · intro tickers tickers' apiKey gen parse models now target_id old_data h
    simp only [get_stock_data, get_stock_dataEnv, h]

/-- C10 witness: `" a "` normalises to `"A"`; the stored id for working
identifier `"2330.TW.TW"` is `"2330"`; and two providers that agree at
`"2330.TW"` give the same refresh for working identifier `"2330.TW"`. -/
theorem id_normalisation_witness :
    workingSet [] (some " a ") = some (["A"], insertOver [] "A" (dummyFor "A")) ∧
    (get_stock_data (fun _ => ⟨some (10, 5), [], [], none, none⟩) false
        (fun _ => none) (fun _ => none) [] "t" "2330.TW.TW" none).map
      (fun r => r.id) = some "2330" ∧
    get_stock_data
        (fun s => if s = "2330.TW" then ⟨some (10, 5), [], [], none, none⟩
          else ⟨none, [], [], none, none⟩)
        false (fun _ => none) (fun _ => none) [] "t" "2330.TW" none =
      get_stock_data (fun _ => ⟨some (10, 5), [], [], none, none⟩) false
        (fun _ => none) (fun _ => none) [] "t" "2330.TW" none := by
  refine ⟨id_normalisation.1 [] " a " [] rfl (by decide) (by simp), ?_, ?_⟩
  · cases hm : get_stock_data (fun _ => ⟨some (10, 5), [], [], none, none⟩) false
        (fun _ => none) (fun _ => none) [] "t" "2330.TW.TW" none with
    | none =>
      have hs : (get_stock_data (fun _ => ⟨some (10, 5), [], [], none, none⟩) false
          (fun _ => none) (fun _ => none) [] "t" "2330.TW.TW" none).isSome = true := rfl
      rw [hm] at hs
      simp at hs
    | some r =>
      have hid := id_normalisation.2.1 _ _ _ _ _ _ _ _ _ hm
      simp only [Option.map_some']
      rw [hid]
      rfl
  · exact id_normalisation.2.2 _ _ false _ _ [] "t" "2330.TW" none rfl

end StockApp
